import Mathlib

/-!
Verification of the SoulStudio workflow-to-tool compiler and execution
dispatcher against its specification.

The DSL parser, tool compiler, parameter binder and execution orchestrator
are modelled from the specification (the repository only documents them);
the SaveAudio player handler and the MCP storage initializer are embedded
from the JavaScript sources.
-/

namespace SoulStudio

/-! ## DSL parser (node title annotations)

Modelled from the spec: the grammar is
`$<paramName>.[~]<fieldName>[!][:<description>]`, the output marker is
`$output.<varName>`, and a node titled exactly `MCP` carries the tool
description. Identifier tokens are non-empty runs of identifier characters.
-/

def isIdentChar (c : Char) : Bool :=
  c.isAlphanum || c = '_' || c = '-'

structure ParamAnn where
  paramName : List Char
  fieldName : List Char
  uploadRequired : Bool
  required : Bool
  description : Option (List Char)
deriving DecidableEq

inductive TitleParse where
  | param (a : ParamAnn)
  | outputMark (varName : List Char)
  | mcpDesc
  | plain
  | malformed
deriving DecidableEq

/-- Leading `~` on the field name marks the parameter as upload-required. -/
def afterUpload (cs : List Char) : Bool × List Char :=
  match cs with
  | [] => (false, [])
  | c :: r => if c = '~' then (true, r) else (false, c :: r)

/-- Trailing `!` on the field name marks the parameter as required. -/
def afterReq (cs : List Char) : Bool × List Char :=
  match cs with
  | [] => (false, [])
  | c :: r => if c = '!' then (true, r) else (false, c :: r)

/-- After the field part, either the title ends or `:` starts the description. -/
def parseDesc (cs : List Char) : Option (Option (List Char)) :=
  match cs with
  | [] => some none
  | c :: d => if c = ':' then some (some d) else none

/-- Match the parameter production `$<paramName>.[~]<fieldName>[!][:<description>]`. -/
def parseParamChars (cs : List Char) : Option ParamAnn :=
  match cs with
  | [] => none
  | c :: rest =>
    if c = '$' then
      let p := rest.takeWhile isIdentChar
      if p = [] then none
      else
        match rest.dropWhile isIdentChar with
        | [] => none
        | c2 :: rest2 =>
          if c2 = '.' then
            let u := afterUpload rest2
            let f := u.2.takeWhile isIdentChar
            if f = [] then none
            else
              let r := afterReq (u.2.dropWhile isIdentChar)
              match parseDesc r.2 with
              | some d => some ⟨p, f, u.1, r.1, d⟩
              | none => none
          else none
    else none

/-- Non-empty run of identifier characters. -/
def identOk (cs : List Char) : Bool :=
  !cs.isEmpty && cs.all isIdentChar

/-- Match the output marker production `$output.<varName>`. -/
def parseOutputChars (cs : List Char) : Option (List Char) :=
  match cs with
  | [] => none
  | c :: rest =>
    if c = '$' then
      if rest.takeWhile isIdentChar = "output".toList then
        match rest.dropWhile isIdentChar with
        | [] => none
        | c2 :: v => if c2 = '.' then (if identOk v then some v else none) else none
      else none
    else none

/-- Full title classification: output marker, then parameter production, then
the literal `MCP` description carrier; other `$`-prefixed titles are
malformed, anything else is a plain internal title. -/
def parseTitleChars (cs : List Char) : TitleParse :=
  match parseOutputChars cs with
  | some v => .outputMark v
  | none =>
    match parseParamChars cs with
    | some a => .param a
    | none =>
      if cs = "MCP".toList then .mcpDesc
      else
        match cs with
        | '$' :: _ => .malformed
        | _ => .plain

def parseTitle (s : String) : TitleParse :=
  parseTitleChars s.toList

/-- Re-serialize a parsed annotation into a node title. -/
def serializeChars (a : ParamAnn) : List Char :=
  ['$'] ++ a.paramName ++ ['.']
    ++ (if a.uploadRequired then ['~'] else [])
    ++ a.fieldName
    ++ (if a.required then ['!'] else [])
    ++ (match a.description with | none => [] | some d => ':' :: d)

def serializeAnn (a : ParamAnn) : String :=
  String.mk (serializeChars a)

/-- An annotation is well formed when both identifier tokens are non-empty
identifier runs and its serialization is not captured by the reserved
`$output.<varName>` production. -/
def outputLike (a : ParamAnn) : Bool :=
  a.paramName = "output".toList && !a.uploadRequired && !a.required
    && a.description = none

def wfAnn (a : ParamAnn) : Bool :=
  identOk a.paramName && identOk a.fieldName && !outputLike a

/-! ## Data model and Type Inferencer

Modelled from the spec: field values are JSON-style literals; the
inferencer classifies a field's current default value into one of the four
primitive parameter types.
-/

inductive Value where
  | num (q : ℚ)
  | vbool (b : Bool)
  | str (s : String)
  | vnull
deriving DecidableEq

inductive PrimType where
  | int
  | float
  | bool
  | string
deriving DecidableEq

/-- Integral numeric literal to `int`, non-integral numeric to `float`,
boolean literal to `bool`, anything else to `string`. -/
def inferType (v : Value) : PrimType :=
  match v with
  | .num q => if q.den = 1 then .int else .float
  | .vbool _ => .bool
  | .str _ => .string
  | .vnull => .string

structure Node where
  id : Nat
  kind : String
  title : String
  fields : List (String × Value)
  boundInputs : List String
deriving DecidableEq

structure GraphTemplate where
  name : String
  nodes : List Node
deriving DecidableEq

structure ParameterSpec where
  name : String
  nodeId : Nat
  fieldName : String
  type : PrimType
  required : Bool
  uploadRequired : Bool
  description : Option String
deriving DecidableEq

inductive OutputMode where
  | auto
  | manual
deriving DecidableEq

structure OutputSpec where
  nodeId : Nat
  varName : Option String
  mode : OutputMode
deriving DecidableEq

structure ToolDescriptor where
  name : String
  description : Option String
  params : List ParameterSpec
  output : OutputSpec
  template : GraphTemplate
deriving DecidableEq

inductive CompileError where
  | dslMalformed (title : String)
  | unknownField (param field : String)
  | missingDefault (param : String)
  | boundFieldConflict (param : String)
  | noOutputFound
deriving DecidableEq

/-! ## Tool Compiler

Modelled from the spec: parse every node title, validate the annotated
field, infer the parameter type from the field's default value, resolve
the output spec (manual marker wins, otherwise the last allow-listed
terminal node in declaration order), and assemble the descriptor.
-/

/-- Node kinds whose fields are implicit upload carriers. -/
def uploadCarrierKinds : List String :=
  ["LoadImage", "VHS_LoadAudioUpload", "VHS_LoadVideo"]

/-- Default allow-list of terminal/save node kinds for auto output detection. -/
def defaultTerminalKinds : List String :=
  ["SaveImage", "SaveVideo", "SaveAudio", "VHS_SaveVideo", "VHS_SaveAudio"]

/-- A default is non-empty when it is present and not the empty string. -/
def isNonEmptyDefault (v : Value) : Bool :=
  match v with
  | .str s => !s.isEmpty
  | .vnull => false
  | _ => true

/-- Compile one node: a parameter annotation must reference an existing,
unbound field, and an optional parameter's field must carry a non-empty
default. -/
def compileNode (n : Node) : Except CompileError (Option ParameterSpec) :=
  match parseTitleChars n.title.toList with
  | .param a =>
    let fname := String.mk a.fieldName
    match n.fields.lookup fname with
    | none => .error (.unknownField (String.mk a.paramName) fname)
    | some v =>
      if n.boundInputs.contains fname then
        .error (.boundFieldConflict (String.mk a.paramName))
      else if !a.required && !isNonEmptyDefault v then
        .error (.missingDefault (String.mk a.paramName))
      else
        .ok (some
          { name := String.mk a.paramName
            nodeId := n.id
            fieldName := fname
            type := inferType v
            required := a.required
            uploadRequired := a.uploadRequired || uploadCarrierKinds.contains n.kind
            description := a.description.map String.mk })
  | .malformed => .error (.dslMalformed n.title)
  | _ => .ok none

/-- Collect parameter specs over the nodes in declaration order. -/
def collectParams : List Node → Except CompileError (List ParameterSpec)
  | [] => .ok []
  | n :: rest =>
    match compileNode n with
    | .error e => .error e
    | .ok p? =>
      match collectParams rest with
      | .error e => .error e
      | .ok ps => .ok (match p? with | some p => p :: ps | none => ps)

/-- Whether a node's compilation can only fail with a missing-default
error; this isolates the missing-default check from the parser's other
error conditions. -/
def nodeNoOtherError (n : Node) : Bool :=
  match compileNode n with
  | .error (.missingDefault _) => true
  | .error _ => false
  | .ok _ => true

/-- The per-node condition of the missing-default check. -/
def optionalWithoutDefault (n : Node) : Prop :=
  ∃ a v, parseTitleChars n.title.toList = .param a ∧
    a.required = false ∧
    n.fields.lookup (String.mk a.fieldName) = some v ∧
    isNonEmptyDefault v = false ∧
    n.boundInputs.contains (String.mk a.fieldName) = false

/-- A node whose title is the `$output.<varName>` marker. -/
def nodeOutputMark (n : Node) : Option OutputSpec :=
  match parseTitleChars n.title.toList with
  | .outputMark v => some ⟨n.id, some (String.mk v), .manual⟩
  | _ => none

/-- Resolve the output spec: a manual `$output.*` marker always wins;
otherwise the last allow-listed terminal node in declaration order is
chosen with mode auto; otherwise compilation fails. -/
def resolveOutput (allow : List String) (nodes : List Node) : Except CompileError OutputSpec :=
  match nodes.findSome? nodeOutputMark with
  | some o => .ok o
  | none =>
    match (nodes.filter (fun n => allow.contains n.kind)).getLast? with
    | some n => .ok ⟨n.id, none, .auto⟩
    | none => .error .noOutputFound

/-- Read the sole text-valued field (`value`, `text` or `string`) of a node. -/
def textFieldOf (n : Node) : Option String :=
  match n.fields.lookup "value" with
  | some (.str s) => some s
  | _ =>
    match n.fields.lookup "text" with
    | some (.str s) => some s
    | _ =>
      match n.fields.lookup "string" with
      | some (.str s) => some s
      | _ => none

/-- Tool-level description carried by a node titled exactly `MCP`. -/
def findMcpDescription (nodes : List Node) : Option String :=
  nodes.findSome? (fun n =>
    match parseTitleChars n.title.toList with
    | .mcpDesc => textFieldOf n
    | _ => none)

/-- Compile a graph template into a tool descriptor. -/
def compile (allow : List String) (t : GraphTemplate) : Except CompileError ToolDescriptor :=
  match collectParams t.nodes with
  | .error e => .error e
  | .ok params =>
    match resolveOutput allow t.nodes with
    | .error e => .error e
    | .ok out =>
      .ok
        { name := t.name
          description := findMcpDescription t.nodes
          params := params
          output := out
          template := t }

/-! ## Tool Registry -/

def Registry := List (String × ToolDescriptor)

/-- Registration replaces any existing descriptor of the same name. -/
def registerTool (reg : Registry) (d : ToolDescriptor) : Registry :=
  (d.name, d) :: reg.filter (fun nd => nd.1 != d.name)

/-- A failed compilation never enters the registry. -/
def registerCompiled (reg : Registry) (r : Except CompileError ToolDescriptor) : Registry :=
  match r with
  | .ok d => registerTool reg d
  | .error _ => reg

/-! ## Parameter Binder and invocation

Modelled from the spec: required arguments are checked first, then every
supplied value is coerced to its parameter's compile-time inferred type;
validation failures are returned before any backend adapter call.
-/

inductive InvokeError where
  | missingRequiredArg (name : String)
  | typeCoercion (name : String)
deriving DecidableEq

/-- Parse a decimal string such as `12` or `3.5` into a rational. -/
def parseRatStr (s : String) : Option ℚ :=
  match s.splitOn "." with
  | [a] => (a.toInt?).map (fun i => (i : ℚ))
  | [a, b] =>
    match a.toInt?, b.toNat? with
    | some i, some fr =>
      let d : ℚ := (fr : ℚ) / ((10 : ℚ) ^ b.length)
      some (if i < 0 then (i : ℚ) - d else (i : ℚ) + d)
    | _, _ => none
  | _ => none

/-- Coerce a supplied argument value to the parameter's inferred type,
following the type's natural parsing rules. -/
def coerce (ty : PrimType) (v : Value) : Option Value :=
  match ty, v with
  | .int, .num q => if q.den = 1 then some (.num q) else none
  | .int, .str s => (s.toInt?).map (fun i => .num (i : ℚ))
  | .int, _ => none
  | .float, .num q => some (.num q)
  | .float, .str s => (parseRatStr s).map .num
  | .float, _ => none
  | .bool, .vbool b => some (.vbool b)
  | .bool, .str s =>
    if s = "true" then some (.vbool true)
    else if s = "false" then some (.vbool false)
    else none
  | .bool, _ => none
  | .string, .str s => some (.str s)
  | .string, .num q => some (.str (toString q))
  | .string, .vbool b => some (.str (if b then "true" else "false"))
  | .string, .vnull => none

/-- Every required parameter must have a supplied value; the check names
the first omitted required parameter. -/
def checkRequired : List ParameterSpec → List (String × Value) → Except InvokeError Unit
  | [], _ => .ok ()
  | p :: rest, args =>
    if p.required && (args.lookup p.name).isNone then
      .error (.missingRequiredArg p.name)
    else checkRequired rest args

/-- Coerce every supplied value to its parameter's stored type; omitted
optional parameters keep the template's default. -/
def coerceArgs : List ParameterSpec → List (String × Value) → Except InvokeError (List (ParameterSpec × Value))
  | [], _ => .ok []
  | p :: rest, args =>
    match args.lookup p.name with
    | none => coerceArgs rest args
    | some v =>
      match coerce p.type v with
      | none => .error (.typeCoercion p.name)
      | some v' =>
        match coerceArgs rest args with
        | .error e => .error e
        | .ok bs => .ok ((p, v') :: bs)

/-- Argument validation is a function of the descriptor's parameter list and
the supplied arguments only. -/
def validateArgs (params : List ParameterSpec) (args : List (String × Value)) :
    Except InvokeError (List (ParameterSpec × Value)) :=
  match checkRequired params args with
  | .error e => .error e
  | .ok _ => coerceArgs params args

/-- Clone the template and write each resolved value at its field path. -/
def bindGraph (t : GraphTemplate) (resolved : List (ParameterSpec × Value)) : GraphTemplate :=
  { t with
    nodes := t.nodes.map (fun n =>
      { n with
        fields := n.fields.map (fun fv =>
          match resolved.find? (fun pv => pv.1.nodeId == n.id && pv.1.fieldName == fv.1) with
          | some pv => (fv.1, pv.2)
          | none => fv) }) }

inductive AdapterCall where
  | submit
  | poll
  | fetchOutput
  | cancelCall
deriving DecidableEq

/-- Invoke a tool: validate and coerce the arguments, and only on success
bind the graph and contact the backend adapter. The second component is
the trace of adapter calls made. -/
def invokeTool (d : ToolDescriptor) (args : List (String × Value)) :
    Except InvokeError GraphTemplate × List AdapterCall :=
  match validateArgs d.params args with
  | .error e => (.error e, [])
  | .ok resolved =>
    (.ok (bindGraph d.template resolved), [.submit, .poll, .fetchOutput])

/-! ## Execution job lifecycle

Modelled from the spec: `pending → running → {succeeded, failed,
timed_out, cancelled}`; terminal states are absorbing and cancellation of
a terminal job is a no-op.
-/

inductive JobStatus where
  | pending
  | running
  | succeeded
  | failed
  | timedOut
  | cancelled
deriving DecidableEq

inductive JobEvent where
  | ack
  | completeOk
  | completeErr
  | timeoutExceeded
  | cancelReq
deriving DecidableEq

def isTerminal (s : JobStatus) : Bool :=
  match s with
  | .succeeded => true
  | .failed => true
  | .timedOut => true
  | .cancelled => true
  | _ => false

/-- One orchestrator-observed event applied to a job's status. -/
def applyEvent (s : JobStatus) (e : JobEvent) : JobStatus :=
  if isTerminal s then s
  else
    match s, e with
    | .pending, .ack => .running
    | .pending, .cancelReq => .cancelled
    | .pending, .timeoutExceeded => .timedOut
    | .pending, _ => .pending
    | .running, .completeOk => .succeeded
    | .running, .completeErr => .failed
    | .running, .timeoutExceeded => .timedOut
    | .running, .cancelReq => .cancelled
    | .running, .ack => .running
    | s', _ => s'

/-- Position along the `pending → running → terminal` chain. -/
def statusRank (s : JobStatus) : Nat :=
  match s with
  | .pending => 0
  | .running => 1
  | _ => 2

/-! ## SaveAudio player handler

Embedded from `src/unnamed/part_001` (the IndexTTS2 SaveAudio player
extension): `buildAudioUrl`, `setState` and the node's `onExecuted`
handler. A JavaScript string is falsy exactly when it is empty, and an
absent property is modelled as `none`. URLSearchParams percent-encoding is
not modelled; only the presence and composition of the query matter here.
-/

structure AudioItem where
  filename : Option String
  type : Option String
  subfolder : Option String
deriving DecidableEq

/-- URL for an audio result item; `null` when the item is absent or its
`filename` is absent or empty (a JavaScript string is falsy exactly when
it equals the empty string). -/
def buildAudioUrl (apiBase : String) (randParam : Option String) (item : Option AudioItem) :
    Option String :=
  match item with
  | none => none
  | some it =>
    match it.filename with
    | none => none
    | some fn =>
      if fn == "" then none
      else
        let ty :=
          match it.type with
          | some t => if t == "" then "output" else t
          | none => "output"
        let base := "filename=" ++ fn ++ "&type=" ++ ty
        let query :=
          match it.subfolder with
          | some sf => if sf == "" then base else base ++ "&subfolder=" ++ sf
          | none => base
        let url := apiBase ++ "/view?" ++ query
        some (match randParam with | some r => url ++ r | none => url)

structure Clip where
  url : String
  title : Option String
deriving DecidableEq

structure PlayerState where
  src : Option String
  title : String
  stateActive : Bool
deriving DecidableEq

/-- State applied to the player widget: an active clip sets the source and
title, otherwise the source is removed and the title reads `No audio yet`. -/
def setState (clip : Option Clip) : PlayerState :=
  match clip with
  | some c =>
    if c.url == "" then { src := none, title := "No audio yet", stateActive := false }
    else { src := some c.url, title := c.title.getD "Audio preview", stateActive := true }
  | none => { src := none, title := "No audio yet", stateActive := false }

/-- Execution-completion message: `message?.ui?.audio` and `message?.audio`
are each absent or a list whose entries may themselves be null. -/
structure ExecMsg where
  uiAudio : Option (List (Option AudioItem))
  audio : Option (List (Option AudioItem))
deriving DecidableEq

/-- The `message?.ui?.audio || message?.audio || []` chain: a present array
is truthy (even when empty). -/
def effectiveResults (m : ExecMsg) : List (Option AudioItem) :=
  match m.uiAudio with
  | some xs => xs
  | none =>
    match m.audio with
    | some xs => xs
    | none => []

/-- The handler reads `audioResults[audioResults.length - 1]`. -/
def pickLatest (xs : List (Option AudioItem)) : Option (Option AudioItem) :=
  xs[xs.length - 1]?

/-- Title shown for the latest clip: `latest.filename || 'Audio preview'`. -/
def latestTitle (item : Option AudioItem) : String :=
  match item with
  | some it =>
    match it.filename with
    | some fn => if fn == "" then "Audio preview" else fn
    | none => "Audio preview"
  | none => "Audio preview"

/-- The SaveAudio node's `onExecuted` handler: activate the player on the
latest audio result when a URL can be built for it, reset it otherwise. -/
def onExecuted (apiBase : String) (randParam : Option String) (m : ExecMsg) : PlayerState :=
  let audioResults := effectiveResults m
  if audioResults.length > 0 then
    match pickLatest audioResults with
    | some latest =>
      match buildAudioUrl apiBase randParam latest with
      | some url =>
        if url == "" then setState none
        else setState (some { url := url, title := some (latestTitle latest) })
      | none => setState none
    | none => setState none
  else setState none

/-! ## MCP storage initialization

Embedded from `src/third_party/Pixelle-MCP/pixelle/public/app.js`:
`initMcp` reads the `mcp_storage_key` entry of localStorage and writes the
default server entry when initialization is needed. `JSON.parse` is a
platform builtin and is passed in as a function returning `none` when the
parse throws; the claims instantiate it only at inputs whose standard JSON
parse is unambiguous.
-/

inductive JsVal where
  | jnull
  | jbool (b : Bool)
  | jnum (q : ℚ)
  | jstr (s : String)
  | jarr (xs : List JsVal)
  | jobj (fs : List (String × JsVal))

/-- JavaScript falsiness of a parsed JSON value (`!mcpStorge`). -/
def jsFalsy (v : JsVal) : Bool :=
  match v with
  | .jnull => true
  | .jbool b => !b
  | .jnum q => q == 0
  | .jstr s => s.isEmpty
  | _ => false

/-- The `mcpStorge.length === 0` test: arrays and strings expose their
length, an object exposes a `length` property if it has one, and the
`length` of any other value is `undefined` (never `=== 0`). -/
def jsLenIsZero (v : JsVal) : Bool :=
  match v with
  | .jarr xs => xs.isEmpty
  | .jstr s => s.isEmpty
  | .jobj fs =>
    match fs.lookup "length" with
    | some (.jnum q) => q == 0
    | _ => false
  | _ => false

/-- Whether `pat` is a prefix of `s`, character by character. -/
def startsWithSeq : List Char → List Char → Bool
  | [], _ => true
  | _ :: _, [] => false
  | p :: ps, c :: cs => p == c && startsWithSeq ps cs

/-- Whether `pat` occurs as a contiguous subsequence of `s`. -/
def containsSeq (pat : List Char) : List Char → Bool
  | [] => startsWithSeq pat []
  | c :: cs => startsWithSeq pat (c :: cs) || containsSeq pat cs

/-- The raw stored string is scanned for the Docker-internal host name
(`mcpStorgeStr.includes('host.docker.internal')`). -/
def hasDockerInternal (s : String) : Bool :=
  containsSeq "host.docker.internal".toList s.toList

/-- The default MCP server entry, as serialized by `JSON.stringify`. -/
def defaultMcpStr : String :=
  "[\x7b\"name\":\"pixelle-mcp\",\"tools\":[],\"clientType\":\"streamable-http\",\"command\":null,\"url\":\"http://localhost:9004/pixelle/mcp\",\"status\":\"disconnected\"\x7d]"

/-- Decision whether `initMcp` must (re)write the default entry. -/
def initMcpNeeds (hostname : String) (stored : Option String)
    (jparse : String → Option JsVal) : Bool :=
  match stored with
  | none => true
  | some s =>
    match jparse s with
    | none => true
    | some v =>
      let ni := jsFalsy v || jsLenIsZero v
      if !ni && hostname == "pixelle.ai" && hasDockerInternal s then true else ni

/-- The stored value after running `initMcp` against the given stored value. -/
def initMcp (hostname : String) (stored : Option String)
    (jparse : String → Option JsVal) : Option String :=
  if initMcpNeeds hostname stored jparse then some defaultMcpStr else stored

/-! ## Concrete inputs used by the witnesses -/

/-- Sample annotation from the spec's Scenario A. -/
def exAnn : ParamAnn :=
  { paramName := "image".toList
    fieldName := "image".toList
    uploadRequired := false
    required := true
    description := some "Input image".toList }

/-- Sample graph template: an annotated LoadImage node, an internal blur
node and a SaveImage terminal node. -/
def exampleTemplate : GraphTemplate :=
  { name := "i_blur"
    nodes :=
      [ { id := 1, kind := "LoadImage", title := "$image.image!:Input image"
          fields := [("image", .str "example.png")], boundInputs := [] }
      , { id := 2, kind := "ImageBlur", title := "blur"
          fields := [("radius", .num 5)], boundInputs := ["image"] }
      , { id := 3, kind := "SaveImage", title := "save"
          fields := [("filename", .str "out")], boundInputs := ["images"] } ] }

/-- Descriptor produced by compiling `exampleTemplate`. -/
def exampleDescriptor : ToolDescriptor :=
  { name := "i_blur"
    description := none
    params :=
      [ { name := "image", nodeId := 1, fieldName := "image", type := .string
          required := true, uploadRequired := true
          description := some "Input image" } ]
    output := ⟨3, none, .auto⟩
    template := exampleTemplate }

/-- Parameter spec compiled from the example template's LoadImage node. -/
def exParamSpec : ParameterSpec :=
  { name := "image", nodeId := 1, fieldName := "image", type := .string
    required := true, uploadRequired := true, description := some "Input image" }

/-- Template whose optional parameter's field lacks a non-empty default. -/
def badDefaultTemplate : GraphTemplate :=
  { name := "bad"
    nodes :=
      [ { id := 1, kind := "CLIPTextEncode", title := "$prompt.text"
          fields := [("text", .str "")], boundInputs := [] }
      , { id := 2, kind := "SaveImage", title := "save"
          fields := [("filename", .str "out")], boundInputs := [] } ] }

/-- Template carrying a manual `$output.result` marker and a terminal node. -/
def manualOutputTemplate : GraphTemplate :=
  { name := "manual"
    nodes :=
      [ { id := 1, kind := "SaveImage", title := "save"
          fields := [("filename", .str "out")], boundInputs := [] }
      , { id := 2, kind := "UpscaleImage", title := "$output.result"
          fields := [("scale", .num 2)], boundInputs := [] } ] }

/-- JSON.parse stub used at the concrete counterexample input: the standard
parse of the string `null` is the JSON null value. -/
def jsonStubNull : String → Option JsVal :=
  fun s => if s = "null" then some .jnull else none

/-- JSON.parse stub used by the idempotence witness: the default entry
parses to the one-element array it denotes (abbreviated to its shape). -/
def jsonStubDefault : String → Option JsVal :=
  fun s => if s = defaultMcpStr then some (.jarr [.jobj []]) else none

/-! ## Helper lemmas -/

theorem takeWhile_dropWhile_middle {α : Type} (p : α → Bool) (l r : List α) (c : α)
    (hl : ∀ x ∈ l, p x = true) (hc : p c = false) :
    (l ++ c :: r).takeWhile p = l ∧ (l ++ c :: r).dropWhile p = c :: r := by
  induction l with
  | nil => simp [List.takeWhile_cons, List.dropWhile_cons, hc]
  | cons a t ih =>
    have ha : p a = true := hl a (by simp)
    have iht := ih (fun x hx => hl x (by simp [hx]))
    simp [List.takeWhile_cons, List.dropWhile_cons, ha, iht.1, iht.2]

theorem takeWhile_append_dropWhile_eq (p : Char → Bool) (l : List Char) :
    l.takeWhile p ++ l.dropWhile p = l :=
  List.takeWhile_append_dropWhile p l

theorem identOk_split {cs : List Char} (h : identOk cs = true) :
    cs ≠ [] ∧ ∀ x ∈ cs, isIdentChar x = true := by
  cases cs with
  | nil => simp [identOk] at h
  | cons c t =>
    simp only [identOk, Bool.and_eq_true, List.all_eq_true] at h
    exact ⟨by simp, fun x hx => h.2 x hx⟩

theorem parseParam_core (pn fn M R D : List Char) (upl req : Bool) (dsc : Option (List Char))
    (hp1 : pn ≠ []) (hpa : ∀ x ∈ pn, isIdentChar x = true)
    (hf1 : fn ≠ []) (hfa : ∀ x ∈ fn, isIdentChar x = true)
    (hM : M = (if upl then ['~'] else []) ++ (fn ++ R))
    (hR : R = (if req then ['!'] else []) ++ D)
    (hD : D = (match dsc with | none => [] | some d => ':' :: d)) :
    parseParamChars ('$' :: (pn ++ '.' :: M)) = some ⟨pn, fn, upl, req, dsc⟩ := by
  have htw := takeWhile_dropWhile_middle isIdentChar pn M '.' hpa (by decide)
  have hu : afterUpload M = (upl, fn ++ R) := by
    cases upl with
    | true => simp [hM, afterUpload]
    | false =>
      simp only [hM, if_neg Bool.false_ne_true, List.nil_append]
      obtain ⟨fc, ft, rfl⟩ : ∃ fc ft, fn = fc :: ft := by
        cases fn with
        | nil => exact absurd rfl hf1
        | cons fc ft => exact ⟨fc, ft, rfl⟩
      have hne : fc ≠ '~' := by
        intro hcontra
        have hq := hfa fc (by simp)
        rw [hcontra] at hq
        exact absurd hq (by decide)
      simp [afterUpload, hne]
  have htf : (fn ++ R).takeWhile isIdentChar = fn ∧ (fn ++ R).dropWhile isIdentChar = R := by
    cases req with
    | true =>
      have hRD : R = '!' :: D := by simp [hR]
      rw [hRD]
      exact takeWhile_dropWhile_middle isIdentChar fn D '!' hfa (by decide)
    | false =>
      have hRD : R = D := by simp [hR]
      rw [hRD]
      cases dsc with
      | none =>
        have hDnil : D = [] := by simp [hD]
        rw [hDnil, List.append_nil]
        constructor
        · exact List.takeWhile_eq_self_iff.mpr (fun x hx => hfa x hx)
        · exact List.dropWhile_eq_nil_iff.mpr (fun x hx => hfa x hx)
      | some d =>
        have hDd : D = ':' :: d := by simp [hD]
        rw [hDd]
        exact takeWhile_dropWhile_middle isIdentChar fn d ':' hfa (by decide)
  have hr : afterReq R = (req, D) := by
    cases req with
    | true => simp [hR, afterReq]
    | false =>
      have hRD : R = D := by simp [hR]
      cases dsc with
      | none => simp [hRD, hD, afterReq]
      | some d => simp [hRD, hD, afterReq]
  have hpd : parseDesc D = some dsc := by
    cases dsc with
    | none => simp [hD, parseDesc]
    | some d => simp [hD, parseDesc]
  simp only [parseParamChars, if_pos rfl, htw.1, htw.2, if_neg hp1]
  simp only [if_pos rfl, hu, htf.1, htf.2, if_neg hf1, hr, hpd]
  simp

theorem parseParam_serialize (a : ParamAnn)
    (hp : identOk a.paramName = true) (hf : identOk a.fieldName = true) :
    parseParamChars (serializeChars a) = some a := by
  obtain ⟨pn, fn, upl, req, dsc⟩ := a
  obtain ⟨hp1, hpa⟩ := identOk_split hp
  obtain ⟨hf1, hfa⟩ := identOk_split hf
  clear hp hf
  cases dsc with
  | none =>
    have e1 : serializeChars ⟨pn, fn, upl, req, none⟩ =
        '$' :: (pn ++ '.' :: ((if upl then ['~'] else []) ++ (fn ++
          ((if req then ['!'] else []) ++ [])))) := by
      simp [serializeChars, List.append_assoc]
    rw [e1]
    exact parseParam_core pn fn _ _ _ upl req none hp1 hpa hf1 hfa rfl rfl rfl
  | some d =>
    have e1 : serializeChars ⟨pn, fn, upl, req, some d⟩ =
        '$' :: (pn ++ '.' :: ((if upl then ['~'] else []) ++ (fn ++
          ((if req then ['!'] else []) ++ (':' :: d))))) := by
      simp [serializeChars, List.append_assoc]
    rw [e1]
    exact parseParam_core pn fn _ _ _ upl req (some d) hp1 hpa hf1 hfa rfl rfl rfl

theorem identOk_of {l : List Char} (h1 : l ≠ []) (h2 : ∀ x ∈ l, isIdentChar x = true) :
    identOk l = true := by
  cases l with
  | nil => exact absurd rfl h1
  | cons c t =>
    simp only [identOk, List.isEmpty_cons, Bool.not_false, Bool.true_and, List.all_eq_true]
    exact fun x hx => h2 x hx

theorem afterUpload_inv {cs r : List Char} {b : Bool} (h : afterUpload cs = (b, r)) :
    cs = (if b then '~' :: r else r) := by
  unfold afterUpload at h
  split at h
  · obtain ⟨rfl, rfl⟩ := Prod.mk.injEq .. ▸ h
    simp
  · rename_i c t
    split at h
    · rename_i hc
      obtain ⟨rfl, rfl⟩ := Prod.mk.injEq .. ▸ h
      simp [hc]
    · obtain ⟨rfl, rfl⟩ := Prod.mk.injEq .. ▸ h
      simp

theorem afterReq_inv {cs r : List Char} {b : Bool} (h : afterReq cs = (b, r)) :
    cs = (if b then '!' :: r else r) := by
  unfold afterReq at h
  split at h
  · obtain ⟨rfl, rfl⟩ := Prod.mk.injEq .. ▸ h
    simp
  · rename_i c t
    split at h
    · rename_i hc
      obtain ⟨rfl, rfl⟩ := Prod.mk.injEq .. ▸ h
      simp [hc]
    · obtain ⟨rfl, rfl⟩ := Prod.mk.injEq .. ▸ h
      simp

theorem parseDesc_inv {cs : List Char} {d : Option (List Char)} (h : parseDesc cs = some d) :
    cs = (match d with | none => [] | some d' => ':' :: d') := by
  cases cs with
  | nil =>
    simp only [parseDesc, Option.some.injEq] at h
    subst h
    rfl
  | cons c t =>
    by_cases hc : c = ':'
    · subst hc
      simp only [parseDesc, reduceIte, Option.some.injEq] at h
      subst h
      rfl
    · simp [parseDesc, hc] at h

theorem parseParam_inv {cs : List Char} {a : ParamAnn} (h : parseParamChars cs = some a) :
    cs = serializeChars a ∧ identOk a.paramName = true ∧ identOk a.fieldName = true := by
  unfold parseParamChars at h
  split at h
  · exact absurd h (by simp)
  rename_i c rest
  split at h
  case isFalse => exact absurd h (by simp)
  rename_i hc
  subst hc
  try dsimp only at h
  split at h
  · exact absurd h (by simp)
  rename_i hp
  split at h
  · exact absurd h (by simp)
  rename_i c2 rest2 hdw
  split at h
  case isFalse => exact absurd h (by simp)
  rename_i hc2
  subst hc2
  try dsimp only at h
  revert h
  cases hu : afterUpload rest2 with
  | mk upl rest3 =>
    intro h
    try dsimp only at h
    split at h
    · exact absurd h (by simp)
    rename_i hf
    revert h
    cases hr : afterReq (rest3.dropWhile isIdentChar) with
    | mk req rest4 =>
      intro h
      try dsimp only at h
      split at h
      case h_2 => exact absurd h (by simp)
      rename_i dsc hpd
      obtain rfl := (Option.some.inj h).symm
      have hrest : rest = rest.takeWhile isIdentChar ++ '.' :: rest2 := by
        conv_lhs => rw [← takeWhile_append_dropWhile_eq isIdentChar rest]
        rw [hdw]
      have hrest2 : rest2 = (if upl then '~' :: rest3 else rest3) := afterUpload_inv hu
      have hdw3 : rest3.dropWhile isIdentChar = (if req then '!' :: rest4 else rest4) :=
        afterReq_inv hr
      have hrest3 : rest3 = rest3.takeWhile isIdentChar ++ (if req then '!' :: rest4 else rest4) := by
        conv_lhs => rw [← takeWhile_append_dropWhile_eq isIdentChar rest3]
        rw [hdw3]
      refine ⟨?_, identOk_of hp (fun x hx => List.mem_takeWhile_imp hx),
        identOk_of hf (fun x hx => List.mem_takeWhile_imp hx)⟩
      show '$' :: rest = serializeChars _
      cases dsc with
      | none =>
        have hrest4 : rest4 = [] := parseDesc_inv hpd
        set p := rest.takeWhile isIdentChar with hp0
        set f := rest3.takeWhile isIdentChar with hf0
        rw [hrest, hrest2, hrest3, hrest4]
        cases upl <;> cases req <;> simp [serializeChars, List.append_assoc]
      | some dd =>
        have hrest4 : rest4 = ':' :: dd := parseDesc_inv hpd
        set p := rest.takeWhile isIdentChar with hp0
        set f := rest3.takeWhile isIdentChar with hf0
        rw [hrest, hrest2, hrest3, hrest4]
        cases upl <;> cases req <;> simp [serializeChars, List.append_assoc]

theorem serializeChars_shape (pn fn : List Char) (upl req : Bool) (dsc : Option (List Char)) :
    serializeChars ⟨pn, fn, upl, req, dsc⟩ =
      '$' :: (pn ++ '.' :: ((if upl then ['~'] else []) ++ (fn ++
        ((if req then ['!'] else []) ++
          (match dsc with | none => [] | some d => ':' :: d))))) := by
  cases dsc <;> simp [serializeChars, List.append_assoc]

theorem parseOutputChars_shape (pn M : List Char) (hpa : ∀ x ∈ pn, isIdentChar x = true) :
    parseOutputChars ('$' :: (pn ++ '.' :: M)) =
      (if pn = "output".toList then (if identOk M then some M else none) else none) := by
  have htw := takeWhile_dropWhile_middle isIdentChar pn M '.' hpa (by decide)
  simp only [parseOutputChars, reduceIte]
  rw [htw.1, htw.2]
  by_cases hpn2 : pn = "output".toList
  · rw [if_pos hpn2, if_pos hpn2]
    simp only [reduceIte]
  · rw [if_neg hpn2, if_neg hpn2]

theorem parseOutput_serialize_none (a : ParamAnn)
    (hp : identOk a.paramName = true) (hf : identOk a.fieldName = true)
    (hno : outputLike a = false) :
    parseOutputChars (serializeChars a) = none := by
  obtain ⟨pn, fn, upl, req, dsc⟩ := a
  obtain ⟨hp1, hpa⟩ := identOk_split hp
  have hTilde : isIdentChar '~' = false := by decide
  have hBang : isIdentChar '!' = false := by decide
  have hColon : isIdentChar ':' = false := by decide
  rw [serializeChars_shape, parseOutputChars_shape pn _ hpa]
  by_cases hout : pn = "output".toList
  swap
  · rw [if_neg hout]
  rw [if_pos hout]
  subst hout
  cases dsc with
  | none =>
    cases upl with
    | true => simp [identOk, List.all_append, hTilde]
    | false =>
      cases req with
      | true => simp [identOk, List.all_append, hBang]
      | false => simp [outputLike] at hno
  | some d =>
    cases upl with
    | true => simp [identOk, List.all_append, hTilde]
    | false =>
      cases req with
      | true => simp [identOk, List.all_append, hBang]
      | false => simp [identOk, List.all_append, hColon]

theorem parseOutput_serialize_mark (a : ParamAnn) (hf : identOk a.fieldName = true)
    (hol : outputLike a = true) :
    parseOutputChars (serializeChars a) = some a.fieldName := by
  obtain ⟨pn, fn, upl, req, dsc⟩ := a
  simp only [outputLike, Bool.and_eq_true, Bool.not_eq_true', decide_eq_true_eq] at hol
  obtain ⟨⟨⟨hpn, hupl⟩, hreq⟩, hdsc⟩ := hol
  subst hpn
  subst hupl
  subst hreq
  subst hdsc
  rw [serializeChars_shape, parseOutputChars_shape _ _ (by decide)]
  simp [hf]

theorem parseTitleChars_param_elim {cs : List Char} {a : ParamAnn}
    (h : parseTitleChars cs = .param a) :
    parseOutputChars cs = none ∧ parseParamChars cs = some a := by
  unfold parseTitleChars at h
  split at h
  · exact absurd h (by simp)
  rename_i hout
  split at h
  · rename_i a' hpp
    cases h
    exact ⟨hout, hpp⟩
  · split at h
    · exact absurd h (by simp)
    · split at h <;> exact absurd h (by simp)

theorem parseTitle_serialize (a : ParamAnn) (hwf : wfAnn a = true) :
    parseTitleChars (serializeChars a) = .param a := by
  have h3 : (identOk a.paramName = true ∧ identOk a.fieldName = true) ∧ outputLike a = false := by
    simpa [wfAnn, Bool.and_eq_true, Bool.not_eq_true'] using hwf
  have ho := parseOutput_serialize_none a h3.1.1 h3.1.2 h3.2
  have hp := parseParam_serialize a h3.1.1 h3.1.2
  unfold parseTitleChars
  rw [ho, hp]

/-- C1: for every node title matching the parameter production of the DSL
grammar `$<paramName>.[~]<fieldName>[!][:<description>]`, the parser
extracts exactly the `(paramName, fieldName, uploadRequired, required,
description)` tuple encoded in the title — every well-formed annotation's
serialization parses to that annotation, and every title parsed as a
parameter annotation is the serialization of the extracted tuple, so
re-serializing a parsed annotation yields a title that parses back to the
same tuple. -/
theorem dsl_parse_extracts_and_roundtrips :
    (∀ a : ParamAnn, wfAnn a = true → parseTitle (serializeAnn a) = TitleParse.param a) ∧
    (∀ (t : String) (a : ParamAnn), parseTitle t = TitleParse.param a →
      t = serializeAnn a ∧ wfAnn a = true ∧
        parseTitle (serializeAnn a) = TitleParse.param a) := by
  constructor
  · intro a hwf
    show parseTitleChars (serializeAnn a).toList = _
    have he : (serializeAnn a).toList = serializeChars a := rfl
    rw [he]
    exact parseTitle_serialize a hwf
  · intro t a ht
    obtain ⟨ho, hp⟩ := parseTitleChars_param_elim ht
    obtain ⟨hts, hip, hif⟩ := parseParam_inv hp
    have hol : outputLike a = false := by
      cases holh : outputLike a with
      | false => rfl
      | true =>
        have hmark := parseOutput_serialize_mark a hif holh
        rw [← hts, ho] at hmark
        exact Option.noConfusion hmark
    have hwf : wfAnn a = true := by
      simp [wfAnn, hip, hif, hol]
    refine ⟨?_, hwf, ?_⟩
    · show t = serializeAnn a
      have he : t = String.mk t.toList := rfl
      rw [he, hts]
      rfl
    · show parseTitleChars (serializeChars a) = _
      exact parseTitle_serialize a hwf

/-- C1 witness: the Scenario A annotation round-trips at a concrete title. -/
theorem dsl_parse_extracts_and_roundtrips_witness :
    parseTitle (serializeAnn exAnn) = TitleParse.param exAnn :=
  dsl_parse_extracts_and_roundtrips.1 exAnn (by decide)

/-- C2: the Tool Compiler is a pure deterministic function of its
GraphTemplate input: two compilations of the same template yield
structurally identical descriptors — same name, same ordered parameter
list and same output spec. -/
theorem compile_deterministic (allow : List String) (t : GraphTemplate)
    (d₁ d₂ : ToolDescriptor)
    (h₁ : compile allow t = .ok d₁) (h₂ : compile allow t = .ok d₂) :
    d₁.name = d₂.name ∧ d₁.params = d₂.params ∧ d₁.output = d₂.output := by
  rw [h₁] at h₂
  injection h₂ with h
  subst h
  exact ⟨rfl, rfl, rfl⟩

/-- C2 witness: the example template compiles, and compiling it twice gives
the same descriptor components. -/
theorem compile_deterministic_witness :
    exampleDescriptor.name = exampleDescriptor.name ∧
    exampleDescriptor.params = exampleDescriptor.params ∧
    exampleDescriptor.output = exampleDescriptor.output :=
  compile_deterministic defaultTerminalKinds exampleTemplate
    exampleDescriptor exampleDescriptor rfl rfl

theorem findSome?_none_of_all {l : List Node} (h : ∀ n ∈ l, nodeOutputMark n = none) :
    l.findSome? nodeOutputMark = none :=
  List.findSome?_eq_none_iff.mpr h

theorem filter_getLast_of_split (allow : List String) (pre post : List Node) (n : Node)
    (hn : allow.contains n.kind = true)
    (hpost : ∀ m ∈ post, allow.contains m.kind = false) :
    ((pre ++ n :: post).filter (fun m => allow.contains m.kind)).getLast? = some n := by
  rw [List.filter_append]
  have hpost0 : post.filter (fun m => allow.contains m.kind) = [] :=
    List.filter_eq_nil_iff.mpr (fun m hm => by
      simp only [hpost m hm]
      exact Bool.false_ne_true)
  have hcons : (n :: post).filter (fun m => allow.contains m.kind) = [n] := by
    rw [List.filter_cons_of_pos (by simpa using hn), hpost0]
  rw [hcons]
  exact List.getLast?_concat _

/-- C3: with no manual `$output.*` marker, output resolution scans the
nodes in declaration order and selects the last allow-listed terminal node
with mode auto; with no marker and no allow-listed node it fails with
`NoOutputFoundError`; and the latest-artifact pick embedded from the
SaveAudio handler (`audioResults[audioResults.length - 1]`) is the
last-produced artifact of the result list. -/
theorem output_auto_last_and_extract_last :
    (∀ (allow : List String) (pre post : List Node) (n : Node),
      (∀ m ∈ pre ++ n :: post, nodeOutputMark m = none) →
      allow.contains n.kind = true →
      (∀ m ∈ post, allow.contains m.kind = false) →
      resolveOutput allow (pre ++ n :: post) = .ok ⟨n.id, none, .auto⟩) ∧
    (∀ (allow : List String) (nodes : List Node),
      (∀ m ∈ nodes, nodeOutputMark m = none) →
      (∀ m ∈ nodes, allow.contains m.kind = false) →
      resolveOutput allow nodes = .error .noOutputFound) ∧
    (∀ xs : List (Option AudioItem), pickLatest xs = xs.getLast?) := by
  refine ⟨?_, ?_, ?_⟩
  · intro allow pre post n hmark hn hpost
    unfold resolveOutput
    rw [findSome?_none_of_all hmark, filter_getLast_of_split allow pre post n hn hpost]
  · intro allow nodes hmark hterm
    unfold resolveOutput
    rw [findSome?_none_of_all hmark]
    have hfil : nodes.filter (fun m => allow.contains m.kind) = [] :=
      List.filter_eq_nil_iff.mpr (fun m hm => by
        simp only [hterm m hm]
        exact Bool.false_ne_true)
    rw [hfil]
    rfl
  · intro xs
    exact (List.getLast?_eq_getElem? xs).symm

/-- C3 witness: on a concrete marker-free template with two allow-listed
save nodes, resolution picks the later one with mode auto. -/
theorem output_auto_last_witness :
    resolveOutput defaultTerminalKinds
      [ { id := 1, kind := "SaveImage", title := "first save"
          fields := [], boundInputs := [] }
      , { id := 2, kind := "SaveAudio", title := "second save"
          fields := [], boundInputs := [] } ] =
    .ok ⟨2, none, .auto⟩ :=
  output_auto_last_and_extract_last.1 defaultTerminalKinds
    [ { id := 1, kind := "SaveImage", title := "first save"
        fields := [], boundInputs := [] } ] []
    { id := 2, kind := "SaveAudio", title := "second save"
      fields := [], boundInputs := [] }
    (by decide) (by decide) (by decide)

theorem nodeOutputMark_inv {n : Node} {o : OutputSpec} (h : nodeOutputMark n = some o) :
    o.nodeId = n.id ∧ o.mode = .manual := by
  unfold nodeOutputMark at h
  split at h
  · injection h with h1
    subst h1
    exact ⟨rfl, rfl⟩
  · exact absurd h (by simp)

theorem findSome?_split {pre post : List Node} {n : Node} {o : OutputSpec}
    (hpre : ∀ m ∈ pre, nodeOutputMark m = none) (hn : nodeOutputMark n = some o) :
    (pre ++ n :: post).findSome? nodeOutputMark = some o := by
  induction pre with
  | nil => simp [List.findSome?_cons, hn]
  | cons m rest ih =>
    have hm := hpre m (List.mem_cons_self ..)
    have ihr := ih (fun x hx => hpre x (List.mem_cons_of_mem _ hx))
    simp only [List.cons_append, List.findSome?_cons, hm]
    exact ihr

/-- C4: in a template containing both a manual `$output.<varName>` marker
and allow-listed terminal nodes, the resolved OutputSpec is the manually
marked node with mode manual — the marker always overrides auto-detected
candidates. -/
theorem manual_output_overrides_auto (allow : List String) (pre post : List Node)
    (n : Node) (o : OutputSpec)
    (hpre : ∀ m ∈ pre, nodeOutputMark m = none)
    (hn : nodeOutputMark n = some o)
    (hterm : ∃ m ∈ pre ++ n :: post, allow.contains m.kind = true) :
    resolveOutput allow (pre ++ n :: post) = .ok o ∧
      o.nodeId = n.id ∧ o.mode = .manual := by
  obtain ⟨h1, h2⟩ := nodeOutputMark_inv hn
  refine ⟨?_, h1, h2⟩
  unfold resolveOutput
  rw [findSome?_split hpre hn]

/-- C4 witness: the manual marker template resolves to the marked node in
manual mode even though a SaveImage node is present. -/
theorem manual_output_overrides_auto_witness :
    resolveOutput defaultTerminalKinds manualOutputTemplate.nodes =
      .ok ⟨2, some "result", .manual⟩ := by
  have h := manual_output_overrides_auto defaultTerminalKinds
    [ { id := 1, kind := "SaveImage", title := "save"
        fields := [("filename", .str "out")], boundInputs := [] } ] []
    { id := 2, kind := "UpscaleImage", title := "$output.result"
      fields := [("scale", .num 2)], boundInputs := [] }
    ⟨2, some "result", .manual⟩
    (by decide) rfl
    ⟨{ id := 1, kind := "SaveImage", title := "save"
       fields := [("filename", .str "out")], boundInputs := [] }, by decide, by decide⟩
  exact h.1

theorem checkRequired_fails (params : List ParameterSpec) (args : List (String × Value))
    (p : ParameterSpec) (hp : p ∈ params) (hreq : p.required = true)
    (hmiss : args.lookup p.name = none) :
    ∃ q, q ∈ params ∧ q.required = true ∧ args.lookup q.name = none ∧
      checkRequired params args = .error (.missingRequiredArg q.name) := by
  induction params with
  | nil => simp at hp
  | cons r rest ih =>
    by_cases hr : (r.required && (args.lookup r.name).isNone) = true
    · obtain ⟨hr1, hr2⟩ := Bool.and_eq_true_iff.mp hr
      refine ⟨r, List.mem_cons_self .., hr1, Option.isNone_iff_eq_none.mp hr2, ?_⟩
      unfold checkRequired
      rw [if_pos hr]
    · have hp' : p ∈ rest := by
        cases List.mem_cons.mp hp with
        | inl heq =>
          subst heq
          exact absurd (by simp [hreq, hmiss]) hr
        | inr hmem => exact hmem
      obtain ⟨q, hq1, hq2, hq3, hq4⟩ := ih hp'
      refine ⟨q, List.mem_cons_of_mem _ hq1, hq2, hq3, ?_⟩
      unfold checkRequired
      rw [if_neg hr]
      exact hq4

/-- C5: an invocation whose argument mapping omits a required parameter
fails with `MissingRequiredArgumentError` naming a required parameter that
was omitted, and the backend adapter call trace is empty — no submit,
poll, fetchOutput or cancel happens. -/
theorem missing_required_rejected_before_backend (d : ToolDescriptor)
    (args : List (String × Value)) (p : ParameterSpec)
    (hp : p ∈ d.params) (hreq : p.required = true)
    (hmiss : args.lookup p.name = none) :
    ∃ q, q ∈ d.params ∧ q.required = true ∧ args.lookup q.name = none ∧
      invokeTool d args = (.error (.missingRequiredArg q.name), []) := by
  obtain ⟨q, h1, h2, h3, h4⟩ := checkRequired_fails d.params args p hp hreq hmiss
  refine ⟨q, h1, h2, h3, ?_⟩
  unfold invokeTool validateArgs
  rw [h4]

/-- C5 witness: invoking the example tool with no arguments names the
omitted required parameter and makes no adapter call. -/
theorem missing_required_rejected_witness :
    ∃ q, q ∈ exampleDescriptor.params ∧ q.required = true ∧
      (([] : List (String × Value)).lookup q.name = none) ∧
      invokeTool exampleDescriptor [] = (.error (.missingRequiredArg q.name), []) :=
  missing_required_rejected_before_backend exampleDescriptor []
    { name := "image", nodeId := 1, fieldName := "image", type := .string
      required := true, uploadRequired := true, description := some "Input image" }
    (by decide) rfl rfl

theorem nodeNoOtherError_elim {n : Node} (h : nodeNoOtherError n = true) {e : CompileError}
    (he : compileNode n = .error e) : ∃ p, e = .missingDefault p := by
  unfold nodeNoOtherError at h
  rw [he] at h
  cases e with
  | missingDefault p => exact ⟨p, rfl⟩
  | dslMalformed t => simp at h
  | unknownField a b => simp at h
  | boundFieldConflict a => simp at h
  | noOutputFound => simp at h

theorem compileNode_missingDefault_iff (n : Node) :
    (∃ p, compileNode n = .error (.missingDefault p)) ↔ optionalWithoutDefault n := by
  constructor
  · rintro ⟨p, hp⟩
    unfold compileNode at hp
    split at hp
    case h_2 => exact absurd hp (by simp)
    case h_3 => exact absurd hp (by simp)
    rename_i a hparse
    dsimp only at hp
    split at hp
    · exact absurd hp (by simp)
    rename_i v hlk
    split at hp
    · exact absurd hp (by simp)
    rename_i hbc
    split at hp
    swap
    · exact absurd hp (by simp)
    rename_i hcond
    obtain ⟨h1, h2⟩ := Bool.and_eq_true_iff.mp hcond
    exact ⟨a, v, hparse, Bool.not_eq_true' .. ▸ h1, hlk, Bool.not_eq_true' .. ▸ h2,
      by simpa using hbc⟩
  · rintro ⟨a, v, hparse, hreq, hlk, hne, hbc⟩
    refine ⟨String.mk a.paramName, ?_⟩
    unfold compileNode
    rw [hparse]
    dsimp only
    rw [hlk]
    dsimp only
    rw [if_neg (by simp only [hbc]; exact Bool.false_ne_true)]
    rw [if_pos (by simp [hreq, hne])]

theorem collectParams_cons_error {n : Node} (rest : List Node) {e : CompileError}
    (h : compileNode n = .error e) : collectParams (n :: rest) = .error e := by
  unfold collectParams
  split
  · rename_i e' he'
    rw [h] at he'
    injection he' with h1
    rw [h1]
  · rename_i p? hp?
    rw [h] at hp?
    exact absurd hp? (by simp)

theorem collectParams_cons_ok_error {n : Node} {rest : List Node}
    {p? : Option ParameterSpec} {e : CompileError}
    (h1 : compileNode n = .ok p?) (h2 : collectParams rest = .error e) :
    collectParams (n :: rest) = .error e := by
  unfold collectParams
  split
  · rename_i e' he'
    rw [h1] at he'
    exact absurd he' (by simp)
  · rename_i q? hq?
    split
    · rename_i e' he'
      rw [h2] at he'
      injection he' with h3
      rw [h3]
    · rename_i ps hps
      rw [h2] at hps
      exact absurd hps (by simp)

theorem collectParams_cons_ok_some {n : Node} {rest : List Node}
    {p : ParameterSpec} {ps : List ParameterSpec}
    (h1 : compileNode n = .ok (some p)) (h2 : collectParams rest = .ok ps) :
    collectParams (n :: rest) = .ok (p :: ps) := by
  unfold collectParams
  split
  · rename_i e' he'
    rw [h1] at he'
    exact absurd he' (by simp)
  · rename_i q? hq?
    rw [h1] at hq?
    injection hq? with h3
    subst h3
    split
    · rename_i e' he'
      rw [h2] at he'
      exact absurd he' (by simp)
    · rename_i ps' hps'
      rw [h2] at hps'
      injection hps' with h4
      subst h4
      rfl

theorem collectParams_cons_ok_none {n : Node} {rest : List Node}
    {ps : List ParameterSpec}
    (h1 : compileNode n = .ok none) (h2 : collectParams rest = .ok ps) :
    collectParams (n :: rest) = .ok ps := by
  unfold collectParams
  split
  · rename_i e' he'
    rw [h1] at he'
    exact absurd he' (by simp)
  · rename_i q? hq?
    rw [h1] at hq?
    injection hq? with h3
    subst h3
    split
    · rename_i e' he'
      rw [h2] at he'
      exact absurd he' (by simp)
    · rename_i ps' hps'
      rw [h2] at hps'
      injection hps' with h4
      subst h4
      rfl

theorem collectParams_missingDefault_iff (nodes : List Node)
    (hok : ∀ n ∈ nodes, nodeNoOtherError n = true) :
    (∃ p, collectParams nodes = .error (.missingDefault p)) ↔
    (∃ n ∈ nodes, ∃ p, compileNode n = .error (.missingDefault p)) := by
  induction nodes with
  | nil => simp [collectParams]
  | cons n rest ih =>
    have hokn := hok n (List.mem_cons_self ..)
    have ihr := ih (fun m hm => hok m (List.mem_cons_of_mem _ hm))
    cases hcn : compileNode n with
    | error e =>
      obtain ⟨p, rfl⟩ := nodeNoOtherError_elim hokn hcn
      have hcc := collectParams_cons_error rest hcn
      constructor
      · intro _
        exact ⟨n, List.mem_cons_self .., p, hcn⟩
      · intro _
        exact ⟨p, hcc⟩
    | ok p? =>
      cases hcr : collectParams rest with
      | error e =>
        have hcc := collectParams_cons_ok_error hcn hcr
        constructor
        · rintro ⟨p, hp⟩
          rw [hcc] at hp
          injection hp with h1
          obtain ⟨m, hm, q, hq⟩ := ihr.mp ⟨p, by rw [hcr, h1]⟩
          exact ⟨m, List.mem_cons_of_mem _ hm, q, hq⟩
        · rintro ⟨m, hm, q, hq⟩
          cases List.mem_cons.mp hm with
          | inl heq =>
            subst heq
            rw [hcn] at hq
            exact absurd hq (by simp)
          | inr hmr =>
            obtain ⟨p, hp⟩ := ihr.mpr ⟨m, hmr, q, hq⟩
            rw [hcr] at hp
            injection hp with h1
            exact ⟨p, by rw [hcc, h1]⟩
      | ok ps =>
        have hcc : ∃ qs, collectParams (n :: rest) = .ok qs := by
          cases p? with
          | some p => exact ⟨p :: ps, collectParams_cons_ok_some hcn hcr⟩
          | none => exact ⟨ps, collectParams_cons_ok_none hcn hcr⟩
        obtain ⟨qs, hcc⟩ := hcc
        constructor
        · rintro ⟨p, hp⟩
          rw [hcc] at hp
          exact absurd hp (by simp)
        · rintro ⟨m, hm, q, hq⟩
          cases List.mem_cons.mp hm with
          | inl heq =>
            subst heq
            rw [hcn] at hq
            exact absurd hq (by simp)
          | inr hmr =>
            obtain ⟨p, hp⟩ := ihr.mpr ⟨m, hmr, q, hq⟩
            rw [hcr] at hp
            exact absurd hp (by simp)

theorem resolveOutput_cases (allow : List String) (nodes : List Node) :
    (∃ o, resolveOutput allow nodes = .ok o) ∨
      resolveOutput allow nodes = .error .noOutputFound := by
  unfold resolveOutput
  split
  · exact Or.inl ⟨_, rfl⟩
  split
  · exact Or.inl ⟨_, rfl⟩
  · exact Or.inr rfl

theorem compile_error_of_collect {allow : List String} {t : GraphTemplate} {e : CompileError}
    (h : collectParams t.nodes = .error e) : compile allow t = .error e := by
  unfold compile
  split
  · rename_i e' he'
    rw [h] at he'
    injection he' with h1
    rw [h1]
  · rename_i params hps
    rw [h] at hps
    exact absurd hps (by simp)

/-- C6: compilation fails with `MissingDefaultError` exactly when some
parameter annotation without a trailing `!` binds a field whose default is
missing or empty (assuming the graph raises no other per-node error), and
a graph whose compilation fails never yields a descriptor and never enters
the registry. -/
theorem missing_default_iff_optional_without_default (allow : List String)
    (t : GraphTemplate) (reg : Registry)
    (hok : ∀ n ∈ t.nodes, nodeNoOtherError n = true) :
    ((∃ p, compile allow t = .error (.missingDefault p)) ↔
      ∃ n ∈ t.nodes, optionalWithoutDefault n) ∧
    (∀ e, compile allow t = .error e →
      registerCompiled reg (compile allow t) = reg ∧ ∀ d, compile allow t ≠ .ok d) := by
  constructor
  · constructor
    · rintro ⟨p, hp⟩
      unfold compile at hp
      split at hp
      · rename_i e heq
        injection hp with h1
        obtain ⟨m, hm, q, hq⟩ := (collectParams_missingDefault_iff t.nodes hok).mp
          ⟨p, by rw [heq, h1]⟩
        exact ⟨m, hm, (compileNode_missingDefault_iff m).mp ⟨q, hq⟩⟩
      · rename_i params heq
        split at hp
        · rename_i e hro
          cases (resolveOutput_cases allow t.nodes) with
          | inl hok2 =>
            obtain ⟨o, ho⟩ := hok2
            rw [ho] at hro
            exact absurd hro (by simp)
          | inr herr =>
            rw [herr] at hro
            injection hro with h2
            rw [← h2] at hp
            exact absurd hp (by simp)
        · exact absurd hp (by simp)
    · rintro ⟨n, hn, hcond⟩
      obtain ⟨p, hp⟩ := (collectParams_missingDefault_iff t.nodes hok).mpr
        ⟨n, hn, (compileNode_missingDefault_iff n).mpr hcond⟩
      exact ⟨p, compile_error_of_collect hp⟩
  · intro e he
    constructor
    · rw [he]
      rfl
    · intro d hd
      rw [he] at hd
      exact absurd hd (by simp)

/-- C6 witness: the bad-default template fails with `MissingDefaultError`
for its optional `prompt` parameter, exhibits the offending node, and does
not enter an empty registry. -/
theorem missing_default_witness :
    (∃ n ∈ badDefaultTemplate.nodes, optionalWithoutDefault n) ∧
    registerCompiled [] (compile defaultTerminalKinds badDefaultTemplate) = [] := by
  have h := missing_default_iff_optional_without_default defaultTerminalKinds
    badDefaultTemplate [] (by decide)
  exact ⟨h.1.mp ⟨"prompt", rfl⟩, (h.2 (.missingDefault "prompt") rfl).1⟩

theorem compile_ok_params {allow : List String} {t : GraphTemplate} {d : ToolDescriptor}
    (h : compile allow t = .ok d) : collectParams t.nodes = .ok d.params := by
  unfold compile at h
  split at h
  · exact absurd h (by simp)
  rename_i params hcp
  split at h
  · exact absurd h (by simp)
  rename_i out hro
  injection h with h1
  rw [← h1]
  exact hcp

theorem collectParams_mem {nodes : List Node} {ps : List ParameterSpec}
    (h : collectParams nodes = .ok ps) {p : ParameterSpec} (hp : p ∈ ps) :
    ∃ n ∈ nodes, compileNode n = .ok (some p) := by
  induction nodes generalizing ps with
  | nil =>
    unfold collectParams at h
    injection h with h1
    rw [← h1] at hp
    simp at hp
  | cons n rest ih =>
    cases hcn : compileNode n with
    | error e =>
      rw [collectParams_cons_error rest hcn] at h
      exact absurd h (by simp)
    | ok p? =>
      cases hcr : collectParams rest with
      | error e =>
        rw [collectParams_cons_ok_error hcn hcr] at h
        exact absurd h (by simp)
      | ok ps' =>
        cases p? with
        | some q =>
          rw [collectParams_cons_ok_some hcn hcr] at h
          injection h with h1
          rw [← h1] at hp
          cases List.mem_cons.mp hp with
          | inl heq =>
            subst heq
            exact ⟨n, List.mem_cons_self .., hcn⟩
          | inr hmr =>
            obtain ⟨m, hm, hc⟩ := ih hcr hmr
            exact ⟨m, List.mem_cons_of_mem _ hm, hc⟩
        | none =>
          rw [collectParams_cons_ok_none hcn hcr] at h
          injection h with h1
          rw [← h1] at hp
          obtain ⟨m, hm, hc⟩ := ih hcr hp
          exact ⟨m, List.mem_cons_of_mem _ hm, hc⟩

theorem compileNode_ok_inv {n : Node} {p : ParameterSpec}
    (h : compileNode n = .ok (some p)) :
    ∃ a v, parseTitleChars n.title.toList = .param a ∧
      n.fields.lookup (String.mk a.fieldName) = some v ∧
      p = { name := String.mk a.paramName, nodeId := n.id
            fieldName := String.mk a.fieldName, type := inferType v
            required := a.required
            uploadRequired := a.uploadRequired || uploadCarrierKinds.contains n.kind
            description := a.description.map String.mk } := by
  unfold compileNode at h
  split at h
  case h_2 => exact absurd h (by simp)
  case h_3 =>
    injection h with h1
    exact absurd h1 (by simp)
  rename_i a hparse
  dsimp only at h
  split at h
  · exact absurd h (by simp)
  rename_i v hlk
  split at h
  · exact absurd h (by simp)
  split at h
  · exact absurd h (by simp)
  injection h with h1
  injection h1 with h2
  exact ⟨a, v, hparse, hlk, h2.symm⟩

/-- C7: the Type Inferencer classifies each field default into exactly one
of the four primitive types — integral numerics to int, non-integral
numerics to float, booleans to bool, everything else to string; every
compiled parameter's type is the inference of its bound field's default in
the template (classification happens at compile time); and call-time
argument validation is a function of the stored parameter list alone, so
inference is never re-run at call time. -/
theorem type_inference_classification :
    (∀ q : ℚ, inferType (.num q) = (if q.den = 1 then PrimType.int else PrimType.float)) ∧
    (∀ b, inferType (.vbool b) = PrimType.bool) ∧
    (∀ s, inferType (.str s) = PrimType.string) ∧
    (inferType .vnull = PrimType.string) ∧
    (∀ (allow : List String) (t : GraphTemplate) (d : ToolDescriptor),
      compile allow t = .ok d → ∀ p ∈ d.params,
        ∃ n ∈ t.nodes, n.id = p.nodeId ∧ ∃ v,
          n.fields.lookup p.fieldName = some v ∧ p.type = inferType v) ∧
    (∀ (d d' : ToolDescriptor) (args : List (String × Value)), d.params = d'.params →
      validateArgs d.params args = validateArgs d'.params args) := by
  refine ⟨fun q => rfl, fun b => rfl, fun s => rfl, rfl, ?_, ?_⟩
  · intro allow t d hc p hp
    obtain ⟨n, hn, hcn⟩ := collectParams_mem (compile_ok_params hc) hp
    obtain ⟨a, v, hparse, hlk, hpeq⟩ := compileNode_ok_inv hcn
    subst hpeq
    exact ⟨n, hn, rfl, v, hlk, rfl⟩
  · intro d d' args h
    rw [h]

/-- C7 witness: the example tool's parameter has the type inferred from its
bound field's default in the template. -/
theorem type_inference_witness :
    ∃ n ∈ exampleTemplate.nodes, n.id = exParamSpec.nodeId ∧ ∃ v,
      n.fields.lookup exParamSpec.fieldName = some v ∧ exParamSpec.type = inferType v :=
  type_inference_classification.2.2.2.2.1 defaultTerminalKinds exampleTemplate
    exampleDescriptor rfl exParamSpec (by decide)

/-- C8: every ExecutionJob status transition is monotonic along
`pending → running → terminal`: the rank never decreases, every observed
event either keeps the status or strictly advances it, and the four
terminal states are absorbing — any event (including a caller-initiated
cancel) applied to a terminal job leaves its status unchanged. -/
theorem job_status_monotone_terminal_absorbing (s : JobStatus) (e : JobEvent) :
    statusRank s ≤ statusRank (applyEvent s e) ∧
    (applyEvent s e = s ∨ statusRank s < statusRank (applyEvent s e)) ∧
    (isTerminal s = true → applyEvent s e = s) := by
  cases s <;> cases e <;> decide

/-- C8 witness: cancelling an already succeeded job leaves it succeeded. -/
theorem job_status_witness :
    applyEvent .succeeded .cancelReq = .succeeded :=
  (job_status_monotone_terminal_absorbing .succeeded .cancelReq).2.2 (by decide)

theorem buildAudioUrl_ne_empty {apiBase : String} {rp : Option String}
    {item : Option AudioItem} {url : String}
    (h : buildAudioUrl apiBase rp item = some url) : (url == "") = false := by
  have h6 : ("/view?" : String).length = 6 := rfl
  have h0 : ("" : String).length = 0 := rfl
  unfold buildAudioUrl at h
  split at h
  · exact absurd h (by simp)
  rename_i it
  split at h
  · exact absurd h (by simp)
  rename_i fn hfn
  split at h
  · exact absurd h (by simp)
  dsimp only at h
  rw [beq_eq_false_iff_ne]
  intro heq
  subst heq
  cases rp with
  | none =>
    injection h with h1
    have hlen := congrArg String.length h1
    rw [String.length_append, String.length_append, h6, h0] at hlen
    omega
  | some r =>
    injection h with h1
    have hlen := congrArg String.length h1
    rw [String.length_append, String.length_append, String.length_append, h6, h0] at hlen
    omega

theorem onExecuted_eq (apiBase : String) (rp : Option String) (m : ExecMsg) :
    onExecuted apiBase rp m =
      (match pickLatest (effectiveResults m) with
       | some latest =>
         (match buildAudioUrl apiBase rp latest with
          | some url =>
            if url == "" then setState none
            else setState (some { url := url, title := some (latestTitle latest) })
          | none => setState none)
       | none => setState none) := by
  unfold onExecuted
  by_cases hlen : 0 < (effectiveResults m).length
  · rw [if_pos hlen]
  · rw [if_neg hlen]
    have hemp : effectiveResults m = [] := by
      cases hE : effectiveResults m with
      | nil => rfl
      | cons a l => exact absurd (by rw [hE]; simp) hlen
    rw [hemp]
    rfl

/-- C9: the SaveAudio `onExecuted` handler is total and resets the player
to the inactive `No audio yet` state with its source removed whenever the
message carries no audio result list, an empty list, or a latest item for
which no URL can be built (`buildAudioUrl` is null when the item is absent
or its filename is absent or empty); the player is active exactly when the
last item of a non-empty result list yields a URL, and then its source is
that URL. -/
theorem onExecuted_inactive_on_missing_audio (apiBase : String) (rp : Option String)
    (m : ExecMsg) :
    (buildAudioUrl apiBase rp none = none) ∧
    (∀ it : AudioItem, (it.filename = none ∨ it.filename = some "") →
      buildAudioUrl apiBase rp (some it) = none) ∧
    ((effectiveResults m = [] ∨
        ∃ l, pickLatest (effectiveResults m) = some l ∧
          buildAudioUrl apiBase rp l = none) →
      onExecuted apiBase rp m = { src := none, title := "No audio yet", stateActive := false }) ∧
    ((onExecuted apiBase rp m).stateActive = true ↔
      ∃ l url, pickLatest (effectiveResults m) = some l ∧
        buildAudioUrl apiBase rp l = some url ∧
        (onExecuted apiBase rp m).src = some url) := by
  refine ⟨rfl, ?_, ?_, ?_⟩
  · intro it hit
    cases hit with
    | inl h1 => simp [buildAudioUrl, h1]
    | inr h1 => simp [buildAudioUrl, h1]
  · intro h
    rw [onExecuted_eq]
    cases h with
    | inl hemp =>
      rw [hemp]
      rfl
    | inr hex =>
      obtain ⟨l, hl, hb⟩ := hex
      rw [hl]
      dsimp only
      rw [hb]
      rfl
  · rw [onExecuted_eq]
    cases hpl : pickLatest (effectiveResults m) with
    | none =>
      dsimp only
      constructor
      · intro hact
        simp [setState] at hact
      · rintro ⟨l, url, hl, _, _⟩
        exact absurd hl (by simp)
    | some l =>
      dsimp only
      cases hb : buildAudioUrl apiBase rp l with
      | none =>
        dsimp only
        constructor
        · intro hact
          simp [setState] at hact
        · rintro ⟨l', url, hl', hb', _⟩
          injection hl' with h1
          subst h1
          rw [hb] at hb'
          exact absurd hb' (by simp)
      | some url =>
        have hurl := buildAudioUrl_ne_empty hb
        dsimp only
        rw [if_neg (by simp [hurl])]
        constructor
        · intro _
          exact ⟨l, url, rfl, hb, by simp [setState, hurl]⟩
        · intro _
          simp [setState, hurl]

/-- C9 witness: a message with no audio result resets the player to the
inactive state. -/
theorem onExecuted_inactive_witness :
    onExecuted "/api" none { uiAudio := none, audio := none } =
      { src := none, title := "No audio yet", stateActive := false } :=
  (onExecuted_inactive_on_missing_audio "/api" none
    { uiAudio := none, audio := none }).2.2.1 (Or.inl rfl)

/-- C10 counterexample: the stored string `null` is parseable JSON
(`JSON.parse` returns the null value) and is not an empty list, yet
`initMcp` overwrites it with the default entry — so writing is not
restricted to the claimed missing / unparseable / empty-list cases and the
store does not remain unchanged. -/
theorem initMcp_rewrites_parseable_null_store :
    jsonStubNull "null" = some JsVal.jnull ∧
    (∀ xs : List JsVal, JsVal.jnull ≠ JsVal.jarr xs) ∧
    initMcp "localhost" (some "null") jsonStubNull = some defaultMcpStr ∧
    some defaultMcpStr ≠ some "null" := by
  refine ⟨rfl, ?_, by decide, by decide⟩
  intro xs h
  exact JsVal.noConfusion h

/-- C10 (amended): `initMcp` writes the default MCP entry exactly when the
stored value is missing, unparseable as JSON, parses to a JavaScript-falsy
value (null, false, 0 or the empty string) or to a value whose `length`
property is 0 — in particular the empty list — or, on host pixelle.ai,
when the parsed value is kept but the raw string contains
`host.docker.internal`; in every other case the stored configuration is
returned unchanged, and running `initMcp` a second time after a first run
is a no-op whenever the default entry parses back to a truthy value
without a zero length. -/
theorem initMcp_trigger_iff_and_idempotent :
    (∀ (host : String) (stored : Option String) (jparse : String → Option JsVal),
      (initMcpNeeds host stored jparse = true ↔
        stored = none ∨
        ∃ s, stored = some s ∧
          (jparse s = none ∨
            ∃ v, jparse s = some v ∧
              (jsFalsy v = true ∨ jsLenIsZero v = true ∨
                (jsFalsy v = false ∧ jsLenIsZero v = false ∧
                  host = "pixelle.ai" ∧ hasDockerInternal s = true)))) ∧
      (initMcpNeeds host stored jparse = false →
        initMcp host stored jparse = stored)) ∧
    (∀ (host : String) (stored : Option String) (jparse : String → Option JsVal)
      (v : JsVal),
      jparse defaultMcpStr = some v → jsFalsy v = false → jsLenIsZero v = false →
      initMcp host (initMcp host stored jparse) jparse = initMcp host stored jparse) := by
  constructor
  · intro host stored jparse
    constructor
    · unfold initMcpNeeds
      cases stored with
      | none => simp
      | some s =>
        cases hj : jparse s with
        | none => simp [hj]
        | some v =>
          simp only [hj, Option.some.injEq, reduceCtorEq, false_or, exists_eq_left']
          by_cases hf : jsFalsy v = true <;> by_cases hl : jsLenIsZero v = true <;>
            by_cases hh : host = "pixelle.ai" <;> by_cases hd : hasDockerInternal s = true <;>
              simp [hf, hl, hh, hd]
    · intro hni
      unfold initMcp
      rw [hni]
      simp
  · intro host stored jparse v hv hf hl
    have hd : hasDockerInternal defaultMcpStr = false := by decide
    cases hneed : initMcpNeeds host stored jparse with
    | false =>
      have h1 : initMcp host stored jparse = stored := by
        unfold initMcp
        rw [hneed]
        simp
      rw [h1]
      exact h1
    | true =>
      have h1 : initMcp host stored jparse = some defaultMcpStr := by
        unfold initMcp
        rw [hneed]
        simp
      rw [h1]
      have hneed2 : initMcpNeeds host (some defaultMcpStr) jparse = false := by
        unfold initMcpNeeds
        dsimp only
        simp [hv, hf, hl, hd]
      unfold initMcp
      rw [hneed2]
      simp

/-- C10 witness: running `initMcp` on an empty store writes the default
entry, and a second run leaves the store unchanged. -/
theorem initMcp_idempotent_witness :
    initMcp "localhost" (initMcp "localhost" none jsonStubDefault) jsonStubDefault =
      initMcp "localhost" none jsonStubDefault :=
  initMcp_trigger_iff_and_idempotent.2 "localhost" none jsonStubDefault
    (JsVal.jarr [JsVal.jobj []]) rfl rfl rfl

end SoulStudio
